import Mathlib

/-!
Shallow embedding of the Portfolio Ledger & Market Simulation Engine of
`server/server.js` (stock-dashboard).

Monetary values (JS numbers) are modelled as rationals; `+(x).toFixed(2)`
is modelled as rounding to 2 decimal places (`round2`).  The SQLite tables
`portfolios`, `holdings` and `trades` are modelled as lists of rows; the
keyed `SELECT ... WHERE email = ?` lookups become `List.find?` on the key,
`INSERT OR REPLACE` becomes filter-out-the-key-then-cons, `DELETE` becomes
filter, `UPDATE` becomes a map over rows with the matching key.
-/

namespace StockDashboard

/-- `+(x).toFixed(2)`: round a number to 2 decimal places. -/
def round2 (x : ℚ) : ℚ := (round (x * 100) : ℤ) / 100

/-- A rational that is an exact 2-decimal (cent) value, as every monetary
value stored by the server is (prices, cash, realized and totals are all
written through `toFixed(2)`). -/
def Cents (x : ℚ) : Prop := ∃ k : ℤ, x = (k : ℚ) / 100

/-- `const SUPPORTED_TICKERS = ['GOOG','TSLA','AMZN','META','NVDA']` -/
def SUPPORTED_TICKERS : List String := ["GOOG", "TSLA", "AMZN", "META", "NVDA"]

/-- `const HISTORY_LEN = 120; // keep last 120 points` -/
def HISTORY_LEN : ℕ := 120

/-- One per-tick price update for one instrument:
`prices[t] = +(prices[t] * (1 + change)).toFixed(2)`. -/
def tickPrice (old change : ℚ) : ℚ := round2 (old * (1 + change))

/-- One per-tick history update for one instrument:
`priceHistory[t].push(prices[t]); if (priceHistory[t].length > HISTORY_LEN) priceHistory[t].shift();` -/
def tickHistory (h : List ℚ) (p : ℚ) : List ℚ :=
  let h2 := h ++ [p]
  if HISTORY_LEN < h2.length then h2.tail else h2

/-- A row of the `portfolios` table (`email TEXT PRIMARY KEY, cash REAL, realized REAL`). -/
structure PortfolioRow where
  email : String
  cash : ℚ
  realized : ℚ
  deriving DecidableEq, Repr

/-- A row of the `holdings` table (`email, ticker, qty INTEGER, avg_cost REAL`,
primary key `(email, ticker)`). -/
structure HoldingRow where
  email : String
  ticker : String
  qty : ℤ
  avg_cost : ℚ
  deriving DecidableEq, Repr

/-- A row of the `trades` table. `side` holds the `type` column
(`'buy'` or `'sell'`). -/
structure TradeRow where
  email : String
  ticker : String
  qty : ℤ
  side : String
  price : ℚ
  total : ℚ
  ts : ℤ
  deriving DecidableEq, Repr

/-- The SQLite database state relevant to the ledger. -/
structure Db where
  portfolios : List PortfolioRow
  holdings : List HoldingRow
  trades : List TradeRow
  deriving DecidableEq, Repr

/-- `SELECT cash, realized FROM portfolios WHERE email = ?` (`.get`). -/
def getPortfolio (db : Db) (email : String) : Option PortfolioRow :=
  db.portfolios.find? (fun r => r.email == email)

/-- `SELECT qty, avg_cost FROM holdings WHERE email = ? AND ticker = ?` (`.get`). -/
def getHolding (db : Db) (email ticker : String) : Option HoldingRow :=
  db.holdings.find? (fun r => r.email == email && r.ticker == ticker)

/-- `INSERT OR REPLACE INTO holdings (email, ticker, qty, avg_cost) VALUES (?, ?, ?, ?)`. -/
def insertOrReplaceHolding (db : Db) (row : HoldingRow) : Db :=
  { db with holdings :=
      row :: db.holdings.filter (fun r => !(r.email == row.email && r.ticker == row.ticker)) }

/-- `DELETE FROM holdings WHERE email = ? AND ticker = ?`. -/
def deleteHolding (db : Db) (email ticker : String) : Db :=
  { db with holdings :=
      db.holdings.filter (fun r => !(r.email == email && r.ticker == ticker)) }

/-- `UPDATE portfolios SET cash = ? WHERE email = ?`. -/
def updatePortfolioCash (db : Db) (email : String) (newCash : ℚ) : Db :=
  { db with portfolios :=
      db.portfolios.map (fun r => if r.email == email then { r with cash := newCash } else r) }

/-- `UPDATE portfolios SET cash = ?, realized = ? WHERE email = ?`. -/
def updatePortfolioCashRealized (db : Db) (email : String) (newCash newRealized : ℚ) : Db :=
  { db with portfolios :=
      db.portfolios.map (fun r =>
        if r.email == email then { r with cash := newCash, realized := newRealized } else r) }

/-- `INSERT INTO trades (email, ticker, qty, type, price, total, ts) VALUES (...)`. -/
def appendTrade (db : Db) (t : TradeRow) : Db :=
  { db with trades := db.trades ++ [t] }

/-- `INSERT OR REPLACE INTO portfolios (email, cash, realized) VALUES (?, 100000, 0)`,
the portfolio-creation half of the `/register` handler. -/
def registerPortfolio (db : Db) (email : String) : Db :=
  { db with portfolios :=
      ⟨email, 100000, 0⟩ :: db.portfolios.filter (fun r => !(r.email == email)) }

/-- `const ownedQty = hold ? hold.qty : 0;` -/
def holdQty (db : Db) (email ticker : String) : ℤ :=
  ((getHolding db email ticker).map HoldingRow.qty).getD 0

/-- `const oldAvg = hold ? (hold.avg_cost || 0) : 0;` -/
def holdAvg (db : Db) (email ticker : String) : ℚ :=
  ((getHolding db email ticker).map HoldingRow.avg_cost).getD 0

/-- Error outcomes of the `/trade` handler (each a distinct 400 response). -/
inductive TradeError where
  | invalidTicker
  | invalidQuantity
  | portfolioNotFound
  | insufficientCash
  | insufficientHoldings
  deriving DecidableEq, Repr

/-- Error outcomes of the `/deposit` handler. -/
inductive DepositError where
  | invalidAmount
  | portfolioNotFound
  deriving DecidableEq, Repr

/-- The state-transforming core of the `/trade` handler (`app.post('/trade')`).
`prices` is the in-memory price map at the time of the request; `ty` is the
request's `type` field (any value other than `"buy"` falls into the sell
branch, exactly as the source's `else { // sell }`); `q` is the requested
quantity, already a (checked-positive) integer; `ts` stands for `Date.now()`.
An error response means the handler returned 400 before mutating anything. -/
def trade (db : Db) (prices : String → ℚ) (email ticker ty : String) (q : ℤ) (ts : ℤ) :
    Except TradeError Db :=
  if !(SUPPORTED_TICKERS.contains ticker) then .error .invalidTicker
  else if q ≤ 0 then .error .invalidQuantity
  else
    let price := prices ticker
    let total := round2 (price * (q : ℚ))
    match getPortfolio db email with
    | none => .error .portfolioNotFound
    | some port =>
      let cash := port.cash
      let realized := port.realized
      let ownedQty := holdQty db email ticker
      let oldAvg := holdAvg db email ticker
      if ty == "buy" then
        if cash < total then .error .insufficientCash
        else
          let newQty := ownedQty + q
          let newAvg := ((oldAvg * (ownedQty : ℚ)) + (price * (q : ℚ))) / ((newQty : ℤ) : ℚ)
          .ok (appendTrade
                (updatePortfolioCash
                  (insertOrReplaceHolding db ⟨email, ticker, newQty, newAvg⟩)
                  email (round2 (cash - total)))
                ⟨email, ticker, q, "buy", price, total, ts⟩)
      else
        if ownedQty < q then .error .insufficientHoldings
        else
          let pnl := round2 ((price - oldAvg) * (q : ℚ))
          let realized2 := round2 (realized + pnl)
          let newQty := ownedQty - q
          let db1 := if newQty = 0 then deleteHolding db email ticker
                     else insertOrReplaceHolding db ⟨email, ticker, newQty, oldAvg⟩
          .ok (appendTrade
                (updatePortfolioCashRealized db1 email (round2 (cash + total)) realized2)
                ⟨email, ticker, q, "sell", price, total, ts⟩)

/-- The state-transforming core of the `/deposit` handler (`app.post('/deposit')`).
`amount?` is `Number(req.body.amount)`: `none` models a NaN result (rejected by
the `isNaN` check). -/
def deposit (db : Db) (email : String) (amount? : Option ℚ) : Except DepositError Db :=
  match amount? with
  | none => .error .invalidAmount
  | some amount =>
    if amount ≤ 0 then .error .invalidAmount
    else
      match getPortfolio db email with
      | none => .error .portfolioNotFound
      | some port =>
        .ok (updatePortfolioCash db email (round2 (port.cash + amount)))

/-- The cash field reported by `app.get('/me')`:
`+(portRow.cash || 0).toFixed(2)` with fallback row `{ cash: 0, realized: 0 }`. -/
def meCash (db : Db) (email : String) : ℚ :=
  round2 (((getPortfolio db email).map PortfolioRow.cash).getD 0)

/-- The realized field reported by `app.get('/me')`. -/
def meRealized (db : Db) (email : String) : ℚ :=
  round2 (((getPortfolio db email).map PortfolioRow.realized).getD 0)

/-- A connected socket.io session: its id and `socket.user.email`. -/
structure Socket where
  sid : ℕ
  email : String
  deriving DecidableEq, Repr

/-- One `socket.emit(event, ...)` performed by a handler, recorded as the
target session id and the event name. -/
structure Emission where
  sid : ℕ
  event : String
  deriving DecidableEq, Repr

/-- The socket fan-out loop at the end of the `/trade` handler:
`for (const socket of io.sockets.sockets.values()) if (socket.user.email === email)
{ socket.emit('portfolioUpdate', ...); socket.emit('tradeExecuted', ...); }`. -/
def tradeEmitLoop (sockets : List Socket) (email : String) : List Emission :=
  sockets.flatMap (fun s =>
    if s.email == email then [⟨s.sid, "portfolioUpdate"⟩, ⟨s.sid, "tradeExecuted"⟩] else [])

/-- The socket emissions performed by the `/deposit` handler: the handler
contains no `socket.emit` at all, so the emission list is empty. -/
def depositEmitLoop (_sockets : List Socket) (_email : String) : List Emission := []

/-- Invariant: every retained holding row has quantity at least 1
(equivalently, no holding record exists with quantity 0 and none is negative). -/
def HoldingsPos (db : Db) : Prop := ∀ r ∈ db.holdings, 1 ≤ r.qty

/-- Invariant: every portfolio row has non-negative cash. -/
def CashNonneg (db : Db) : Prop := ∀ r ∈ db.portfolios, 0 ≤ r.cash

/-- Total quantity of a list of buy fills `(qty, price)`. -/
def fillsQty (fills : List (ℤ × ℚ)) : ℤ := (fills.map Prod.fst).sum

/-- Total cost `Σ priceᵢ * qtyᵢ` of a list of buy fills `(qty, price)`. -/
def fillsCost (fills : List (ℤ × ℚ)) : ℚ := (fills.map (fun f => f.2 * (f.1 : ℚ))).sum

/-- Execute a sequence of buy fills `(qty, price)` through the `/trade`
handler, each at its own market price; `none` if any of them is rejected. -/
def runBuys (email tk : String) : Db → List (ℤ × ℚ) → Option Db
  | db, [] => some db
  | db, (q, p) :: rest =>
    match trade db (fun _ => p) email tk "buy" q 0 with
    | .ok db2 => runBuys email tk db2 rest
    | .error _ => none

/-! ## Arithmetic lemmas about `round2` and `Cents` -/

theorem round2_eq_floor (x : ℚ) : round2 x = (⌊x * 100 + 1 / 2⌋ : ℤ) / 100 := by
  rw [round2, round_eq]

theorem round2_cents (x : ℚ) : Cents (round2 x) := ⟨round (x * 100), rfl⟩

theorem cents_round2_eq {x : ℚ} (h : Cents x) : round2 x = x := by
  obtain ⟨k, rfl⟩ := h
  have h100 : ((k : ℚ) / 100) * 100 = (k : ℚ) := by field_simp
  rw [round2, h100, round_intCast]

theorem cents_add {x y : ℚ} (hx : Cents x) (hy : Cents y) : Cents (x + y) := by
  obtain ⟨k, rfl⟩ := hx; obtain ⟨m, rfl⟩ := hy
  exact ⟨k + m, by push_cast; ring⟩

theorem cents_sub {x y : ℚ} (hx : Cents x) (hy : Cents y) : Cents (x - y) := by
  obtain ⟨k, rfl⟩ := hx; obtain ⟨m, rfl⟩ := hy
  exact ⟨k - m, by push_cast; ring⟩

theorem cents_mul_int {x : ℚ} (hx : Cents x) (q : ℤ) : Cents (x * (q : ℚ)) := by
  obtain ⟨k, rfl⟩ := hx
  exact ⟨k * q, by push_cast; ring⟩

theorem round2_nonneg {x : ℚ} (hx : 0 ≤ x) : 0 ≤ round2 x := by
  rw [round2_eq_floor]
  have : (0 : ℤ) ≤ ⌊x * 100 + 1 / 2⌋ := by
    rw [Int.le_floor]
    push_cast
    nlinarith
  positivity

theorem round2_zero : round2 0 = 0 := cents_round2_eq ⟨0, by norm_num⟩

/-! ## Database access lemmas -/

theorem find?_map_email_preserving (l : List PortfolioRow) (email : String)
    (f : PortfolioRow → PortfolioRow) (hf : ∀ r, (f r).email = r.email) :
    (l.map f).find? (fun r => r.email == email) =
      (l.find? (fun r => r.email == email)).map f := by
  rw [List.find?_map]
  have hpred : ((fun r : PortfolioRow => r.email == email) ∘ f) =
      (fun r : PortfolioRow => r.email == email) := by
    funext r
    simp [hf r]
  rw [hpred]

theorem getPortfolio_updateCash (db : Db) (email : String) (c : ℚ) {port : PortfolioRow}
    (h : getPortfolio db email = some port) :
    getPortfolio (updatePortfolioCash db email c) email = some { port with cash := c } := by
  have h' : db.portfolios.find? (fun r => r.email == email) = some port := h
  have hemail := List.find?_some h'
  show ((updatePortfolioCash db email c).portfolios).find? (fun r => r.email == email) = _
  simp only [updatePortfolioCash]
  rw [find?_map_email_preserving _ _ _ (fun r => by split <;> rfl), h']
  simp [Option.map, hemail]

theorem getPortfolio_updateCashRealized (db : Db) (email : String) (c rz : ℚ)
    {port : PortfolioRow} (h : getPortfolio db email = some port) :
    getPortfolio (updatePortfolioCashRealized db email c rz) email =
      some { port with cash := c, realized := rz } := by
  have h' : db.portfolios.find? (fun r => r.email == email) = some port := h
  have hemail := List.find?_some h'
  show ((updatePortfolioCashRealized db email c rz).portfolios).find?
    (fun r => r.email == email) = _
  simp only [updatePortfolioCashRealized]
  rw [find?_map_email_preserving _ _ _ (fun r => by split <;> rfl), h']
  simp [Option.map, hemail]

theorem getHolding_insert_self (db : Db) (row : HoldingRow) :
    getHolding (insertOrReplaceHolding db row) row.email row.ticker = some row := by
  simp [getHolding, insertOrReplaceHolding, List.find?_cons]

theorem getHolding_delete_self (db : Db) (email ticker : String) :
    getHolding (deleteHolding db email ticker) email ticker = none := by
  rw [getHolding, deleteHolding]
  rw [List.find?_eq_none]
  intro r hr
  have h2 := (List.mem_filter.mp hr).2
  simp only [Bool.not_eq_true'] at h2
  simp [h2]

theorem getPortfolio_insertHolding (db : Db) (row : HoldingRow) (email : String) :
    getPortfolio (insertOrReplaceHolding db row) email = getPortfolio db email := rfl

theorem getPortfolio_deleteHolding (db : Db) (e t email : String) :
    getPortfolio (deleteHolding db e t) email = getPortfolio db email := rfl

theorem getPortfolio_appendTrade (db : Db) (tr : TradeRow) (email : String) :
    getPortfolio (appendTrade db tr) email = getPortfolio db email := rfl

theorem getHolding_updateCash (db : Db) (e : String) (c : ℚ) (email ticker : String) :
    getHolding (updatePortfolioCash db e c) email ticker = getHolding db email ticker := rfl

theorem getHolding_updateCashRealized (db : Db) (e : String) (c rz : ℚ) (email ticker : String) :
    getHolding (updatePortfolioCashRealized db e c rz) email ticker =
      getHolding db email ticker := rfl

theorem getHolding_appendTrade (db : Db) (tr : TradeRow) (email ticker : String) :
    getHolding (appendTrade db tr) email ticker = getHolding db email ticker := rfl

/-! ## Inversion and evaluation lemmas for the trade handler -/

theorem trade_buy_inv {db : Db} {prices : String → ℚ} {email tk ty : String} {q ts : ℤ}
    {db' : Db} (hbuy : (ty == "buy") = true)
    (h : trade db prices email tk ty q ts = .ok db') :
    SUPPORTED_TICKERS.contains tk = true ∧ 0 < q ∧
    ∃ port, getPortfolio db email = some port ∧
      ¬(port.cash < round2 (prices tk * (q : ℚ))) ∧
      db' = appendTrade
        (updatePortfolioCash
          (insertOrReplaceHolding db
            ⟨email, tk, holdQty db email tk + q,
              ((holdAvg db email tk * ((holdQty db email tk : ℤ) : ℚ)) +
                  prices tk * (q : ℚ)) / (((holdQty db email tk + q : ℤ) : ℚ))⟩)
          email (round2 (port.cash - round2 (prices tk * (q : ℚ)))))
        ⟨email, tk, q, "buy", prices tk, round2 (prices tk * (q : ℚ)), ts⟩ := by
  simp only [trade] at h
  by_cases h1 : SUPPORTED_TICKERS.contains tk = true
  swap
  · simp [Bool.not_eq_true] at h1
    simp [h1] at h
  simp only [h1, Bool.not_true, if_false, Bool.false_eq_true] at h
  by_cases h2 : q ≤ 0
  · simp [h2] at h
  simp only [h2, if_false] at h
  cases hport : getPortfolio db email with
  | none => rw [hport] at h; exact absurd h (by simp)
  | some port =>
    rw [hport] at h
    simp only [hbuy, if_true] at h
    by_cases h3 : port.cash < round2 (prices tk * (q : ℚ))
    · simp [h3] at h
    simp only [h3, if_false] at h
    refine ⟨h1, lt_of_not_le h2, port, rfl, h3, ?_⟩
    simpa [eq_comm] using h

theorem trade_sell_inv {db : Db} {prices : String → ℚ} {email tk ty : String} {q ts : ℤ}
    {db' : Db} (hsell : (ty == "buy") = false)
    (h : trade db prices email tk ty q ts = .ok db') :
    SUPPORTED_TICKERS.contains tk = true ∧ 0 < q ∧
    ∃ port, getPortfolio db email = some port ∧ q ≤ holdQty db email tk ∧
      db' = appendTrade
        (updatePortfolioCashRealized
          (if holdQty db email tk - q = 0 then deleteHolding db email tk
           else insertOrReplaceHolding db
             ⟨email, tk, holdQty db email tk - q, holdAvg db email tk⟩)
          email (round2 (port.cash + round2 (prices tk * (q : ℚ))))
          (round2 (port.realized +
            round2 ((prices tk - holdAvg db email tk) * (q : ℚ)))))
        ⟨email, tk, q, "sell", prices tk, round2 (prices tk * (q : ℚ)), ts⟩ := by
  simp only [trade] at h
  by_cases h1 : SUPPORTED_TICKERS.contains tk = true
  swap
  · simp [Bool.not_eq_true] at h1
    simp [h1] at h
  simp only [h1, Bool.not_true, if_false, Bool.false_eq_true] at h
  by_cases h2 : q ≤ 0
  · simp [h2] at h
  simp only [h2, if_false] at h
  cases hport : getPortfolio db email with
  | none => rw [hport] at h; exact absurd h (by simp)
  | some port =>
    rw [hport] at h
    simp only [hsell, Bool.false_eq_true, if_false] at h
    by_cases h3 : holdQty db email tk < q
    · simp [h3] at h
    simp only [h3, if_false] at h
    refine ⟨h1, lt_of_not_le h2, port, rfl, le_of_not_lt h3, ?_⟩
    simpa [eq_comm] using h

theorem trade_buy_eval (db : Db) (prices : String → ℚ) (email tk : String) (q ts : ℤ)
    (port : PortfolioRow) (h1 : SUPPORTED_TICKERS.contains tk = true) (h2 : 0 < q)
    (hport : getPortfolio db email = some port)
    (h3 : ¬(port.cash < round2 (prices tk * (q : ℚ)))) :
    trade db prices email tk "buy" q ts = .ok (appendTrade
      (updatePortfolioCash
        (insertOrReplaceHolding db
          ⟨email, tk, holdQty db email tk + q,
            ((holdAvg db email tk * ((holdQty db email tk : ℤ) : ℚ)) +
                prices tk * (q : ℚ)) / (((holdQty db email tk + q : ℤ) : ℚ))⟩)
        email (round2 (port.cash - round2 (prices tk * (q : ℚ)))))
      ⟨email, tk, q, "buy", prices tk, round2 (prices tk * (q : ℚ)), ts⟩) := by
  have h1' : tk ∈ SUPPORTED_TICKERS := by simpa using h1
  have h2' : ¬(q ≤ 0) := not_le.mpr h2
  simp [trade, h1', h2', hport, h3]

theorem trade_sell_eval (db : Db) (prices : String → ℚ) (email tk : String) (q ts : ℤ)
    (port : PortfolioRow) (h1 : SUPPORTED_TICKERS.contains tk = true) (h2 : 0 < q)
    (hport : getPortfolio db email = some port)
    (h3 : ¬(holdQty db email tk < q)) :
    trade db prices email tk "sell" q ts = .ok (appendTrade
      (updatePortfolioCashRealized
        (if holdQty db email tk - q = 0 then deleteHolding db email tk
         else insertOrReplaceHolding db
           ⟨email, tk, holdQty db email tk - q, holdAvg db email tk⟩)
        email (round2 (port.cash + round2 (prices tk * (q : ℚ))))
        (round2 (port.realized +
          round2 ((prices tk - holdAvg db email tk) * (q : ℚ)))))
      ⟨email, tk, q, "sell", prices tk, round2 (prices tk * (q : ℚ)), ts⟩) := by
  have h2' : ¬(q ≤ 0) := not_le.mpr h2
  simp only [trade, h1, Bool.not_true, if_false, h2', hport, Bool.false_eq_true, h3]
  simp

theorem trade_sell_insufficient (db : Db) (prices : String → ℚ) (email tk : String)
    (q ts : ℤ) (port : PortfolioRow) (h1 : SUPPORTED_TICKERS.contains tk = true)
    (h2 : 0 < q) (hport : getPortfolio db email = some port)
    (h3 : holdQty db email tk < q) :
    trade db prices email tk "sell" q ts = .error .insufficientHoldings := by
  have h1' : tk ∈ SUPPORTED_TICKERS := by simpa using h1
  have h2' : ¬(q ≤ 0) := not_le.mpr h2
  simp [trade, h1', h2', hport, h3]

theorem trade_buy_insufficient (db : Db) (prices : String → ℚ) (email tk : String)
    (q ts : ℤ) (port : PortfolioRow) (h1 : SUPPORTED_TICKERS.contains tk = true)
    (h2 : 0 < q) (hport : getPortfolio db email = some port)
    (h3 : port.cash < round2 (prices tk * (q : ℚ))) :
    trade db prices email tk "buy" q ts = .error .insufficientCash := by
  have h1' : tk ∈ SUPPORTED_TICKERS := by simpa using h1
  have h2' : ¬(q ≤ 0) := not_le.mpr h2
  simp [trade, h1', h2', hport, h3]

theorem trade_portfolioNotFound (db : Db) (prices : String → ℚ) (email tk ty : String)
    (q ts : ℤ) (h1 : SUPPORTED_TICKERS.contains tk = true) (h2 : 0 < q)
    (hport : getPortfolio db email = none) :
    trade db prices email tk ty q ts = .error .portfolioNotFound := by
  have h1' : tk ∈ SUPPORTED_TICKERS := by simpa using h1
  have h2' : ¬(q ≤ 0) := not_le.mpr h2
  simp [trade, h1', h2', hport]

theorem deposit_eval (db : Db) (email : String) (amount : ℚ) (port : PortfolioRow)
    (hport : getPortfolio db email = some port) (ha : 0 < amount) :
    deposit db email (some amount) =
      .ok (updatePortfolioCash db email (round2 (port.cash + amount))) := by
  have ha' : ¬(amount ≤ 0) := not_le.mpr ha
  simp [deposit, ha', hport]

theorem deposit_ok_inv {db : Db} {email : String} {amount? : Option ℚ} {db2 : Db}
    (h : deposit db email amount? = .ok db2) :
    ∃ amount port, amount? = some amount ∧ 0 < amount ∧
      getPortfolio db email = some port ∧
      db2 = updatePortfolioCash db email (round2 (port.cash + amount)) := by
  cases amount? with
  | none => simp [deposit] at h
  | some amount =>
    simp only [deposit] at h
    by_cases ha : amount ≤ 0
    · simp [ha] at h
    simp only [ha, if_false] at h
    cases hport : getPortfolio db email with
    | none => rw [hport] at h; exact absurd h (by simp)
    | some port =>
      rw [hport] at h
      exact ⟨amount, port, rfl, lt_of_not_le ha, rfl, by simpa [eq_comm] using h⟩

theorem holdQty_nonneg {db : Db} (hinv : HoldingsPos db) (email tk : String) :
    0 ≤ holdQty db email tk := by
  rw [holdQty]
  cases hh : getHolding db email tk with
  | none => simp
  | some r =>
    have hr : r ∈ db.holdings := List.mem_of_find?_eq_some hh
    have := hinv r hr
    simp only [Option.map_some', Option.getD_some]
    omega

theorem cashNonneg_updateCash {db : Db} (hinv : CashNonneg db) (e : String) {c : ℚ}
    (hc : 0 ≤ c) : CashNonneg (updatePortfolioCash db e c) := by
  intro r hr
  simp only [updatePortfolioCash, List.mem_map] at hr
  obtain ⟨r0, hr0, rfl⟩ := hr
  by_cases he : (r0.email == e) = true <;> simp [he]
  · exact hc
  · exact hinv r0 hr0

theorem cashNonneg_updateCashRealized {db : Db} (hinv : CashNonneg db) (e : String)
    {c : ℚ} (rz : ℚ) (hc : 0 ≤ c) : CashNonneg (updatePortfolioCashRealized db e c rz) := by
  intro r hr
  simp only [updatePortfolioCashRealized, List.mem_map] at hr
  obtain ⟨r0, hr0, rfl⟩ := hr
  by_cases he : (r0.email == e) = true <;> simp [he]
  · exact hc
  · exact hinv r0 hr0

/-! ## Lemmas about sequences of buys -/

theorem runBuys_fills_pos (email tk : String) (fills : List (ℤ × ℚ)) :
    ∀ db db', runBuys email tk db fills = some db' → ∀ f ∈ fills, 0 < f.1 := by
  induction fills with
  | nil => simp
  | cons f rest ih =>
    intro db db' h g hg
    obtain ⟨q, p⟩ := f
    simp only [runBuys] at h
    cases htr : trade db (fun _ => p) email tk "buy" q 0 with
    | error e => rw [htr] at h; simp at h
    | ok db2 =>
      rw [htr] at h
      rcases List.mem_cons.mp hg with rfl | hg2
      · exact (trade_buy_inv (by simp) htr).2.1
      · exact ih db2 db' h g hg2

theorem buy_step_holding {db : Db} {prices : String → ℚ} {email tk : String} {q ts : ℤ}
    {db' : Db} (h : trade db prices email tk "buy" q ts = .ok db') :
    getHolding db' email tk = some
      ⟨email, tk, holdQty db email tk + q,
        ((holdAvg db email tk * ((holdQty db email tk : ℤ) : ℚ)) + prices tk * (q : ℚ)) /
          (((holdQty db email tk + q : ℤ) : ℚ))⟩ := by
  obtain ⟨-, -, port, -, -, rfl⟩ := trade_buy_inv (by simp) h
  rw [getHolding_appendTrade, getHolding_updateCash]
  exact getHolding_insert_self db _

theorem runBuys_qty_cost (email tk : String) (fills : List (ℤ × ℚ)) :
    ∀ db db', runBuys email tk db fills = some db' → 0 ≤ holdQty db email tk →
      holdQty db' email tk = holdQty db email tk + fillsQty fills ∧
      holdAvg db' email tk * ((holdQty db' email tk : ℤ) : ℚ) =
        holdAvg db email tk * ((holdQty db email tk : ℤ) : ℚ) + fillsCost fills := by
  induction fills with
  | nil =>
    intro db db' h hq
    simp only [runBuys, Option.some.injEq] at h
    subst h
    simp [fillsQty, fillsCost]
  | cons f rest ih =>
    intro db db' h hq
    obtain ⟨q, p⟩ := f
    simp only [runBuys] at h
    cases htr : trade db (fun _ => p) email tk "buy" q 0 with
    | error e => rw [htr] at h; simp at h
    | ok db2 =>
      rw [htr] at h
      have hqpos : 0 < q := (trade_buy_inv (by simp) htr).2.1
      have hstep := buy_step_holding htr
      have hq2 : holdQty db2 email tk = holdQty db email tk + q := by
        rw [holdQty, hstep]; rfl
      have hden : ((holdQty db email tk + q : ℤ) : ℚ) ≠ 0 := by
        have : (0 : ℤ) < holdQty db email tk + q := by omega
        exact_mod_cast this.ne.symm
      have hcost2 : holdAvg db2 email tk * ((holdQty db2 email tk : ℤ) : ℚ) =
          holdAvg db email tk * ((holdQty db email tk : ℤ) : ℚ) + p * (q : ℚ) := by
        rw [holdAvg, hstep, hq2]
        simp only [Option.map_some', Option.getD_some]
        field_simp
      have hq2nonneg : 0 ≤ holdQty db2 email tk := by omega
      obtain ⟨ihq, ihc⟩ := ih db2 db' h hq2nonneg
      constructor
      · rw [ihq, hq2, fillsQty]
        simp [fillsQty, List.sum_cons]
        ring
      · rw [ihc, hcost2, fillsCost]
        simp [fillsCost, List.sum_cons]
        ring

/-! ## Claim theorems -/

/-- C7: for every instrument and tick, the price-history buffer is a FIFO of
maximum length `HISTORY_LEN` (120): the new price is appended at the end,
the length never exceeds the maximum, and when the buffer is full the evicted
entry is the oldest one, so the retained buffer is the previous buffer's tail
(whose first entry is the second-oldest of the previous cycle) plus the new
price. -/
theorem history_fifo_spec (h : List ℚ) (p : ℚ) (hlen : h.length ≤ HISTORY_LEN) :
    (tickHistory h p).length ≤ HISTORY_LEN ∧
    (tickHistory h p).getLast? = some p ∧
    (HISTORY_LEN ≤ h.length → tickHistory h p = h.tail ++ [p]) := by
  simp only [tickHistory]
  by_cases hc : HISTORY_LEN < (h ++ [p]).length
  · simp only [hc, if_true]
    have hlen2 : h.length = HISTORY_LEN := by
      simp only [List.length_append, List.length_singleton] at hc
      omega
    cases h with
    | nil => simp [HISTORY_LEN] at hlen2
    | cons a t =>
      refine ⟨?_, ?_, fun _ => ?_⟩
      · simp only [List.cons_append, List.tail_cons, List.length_append,
          List.length_singleton]
        simp only [List.length_cons] at hlen2
        omega
      · simp only [List.cons_append, List.tail_cons]
        exact List.getLast?_concat _
      · simp
  · simp only [hc, if_false]
    refine ⟨?_, List.getLast?_concat _, fun hge => ?_⟩
    · simp only [List.length_append, List.length_singleton]
      simp only [not_lt, List.length_append, List.length_singleton] at hc
      omega
    · exfalso
      simp only [not_lt, List.length_append, List.length_singleton] at hc
      omega

/-- C8: for every instrument whose current price is a positive 2-decimal
value and every perturbation `δ` with `-1% ≤ δ ≤ 1%`, the tick update
`round2 (old * (1 + δ))` yields a price that is at least 0.01, positive, and
again a 2-decimal value — an instrument's price can never become
non-positive (the conditional clamp described in the spec is never needed:
no computed price is ≤ 0 on this input range). -/
theorem tick_price_positive_spec (p δ : ℚ) (hp : 0 < p) (hc : Cents p)
    (h1 : -(1 / 100) ≤ δ) (h2 : δ ≤ 1 / 100) :
    0 < tickPrice p δ ∧ 1 / 100 ≤ tickPrice p δ ∧ Cents (tickPrice p δ) := by
  obtain ⟨k, rfl⟩ := hc
  have hk : 1 ≤ k := by
    by_contra hk0
    push_neg at hk0
    have hk0' : k ≤ 0 := by omega
    have : (k : ℚ) ≤ 0 := by exact_mod_cast hk0'
    nlinarith
  have hk' : (1 : ℚ) ≤ (k : ℚ) := by exact_mod_cast hk
  have hbase : (99 : ℚ) / 10000 ≤ ((k : ℚ) / 100) * (1 + δ) := by nlinarith
  have hround : (1 : ℤ) ≤ round (((k : ℚ) / 100) * (1 + δ) * 100) := by
    rw [round_eq, Int.le_floor]
    push_cast
    nlinarith
  have hroundQ : (1 : ℚ) ≤ ((round (((k : ℚ) / 100) * (1 + δ) * 100) : ℤ) : ℚ) := by
    exact_mod_cast hround
  refine ⟨?_, ?_, round2_cents _⟩
  · show (0 : ℚ) < (round (((k : ℚ) / 100) * (1 + δ) * 100) : ℤ) / 100
    linarith
  · show (1 : ℚ) / 100 ≤ (round (((k : ℚ) / 100) * (1 + δ) * 100) : ℤ) / 100
    linarith

/-- C9 counterexample: the claim says a successful deposit pushes an updated
portfolio snapshot to the depositing account's live sessions, but the
`/deposit` handler performs no socket emission at all: with one live session
`⟨0, "a"⟩` for account `"a"`, the deposit handler's emission list is empty
and in particular contains no `portfolioUpdate` event for that session. -/
theorem deposit_push_refuted :
    depositEmitLoop [⟨0, "a"⟩] "a" = [] ∧
    ¬(Emission.mk 0 "portfolioUpdate" ∈ depositEmitLoop [⟨0, "a"⟩] "a") := by
  exact ⟨rfl, by simp [depositEmitLoop]⟩

/-- C9 amended: on every successful trade the handler's emit loop pushes a
`portfolioUpdate` and a `tradeExecuted` event to every live session of the
trading account and to no other session; a successful deposit pushes
nothing (its handler contains no socket emission). -/
theorem targeted_push_spec (sockets : List Socket) (email : String) :
    (∀ s ∈ sockets, s.email = email →
       Emission.mk s.sid "portfolioUpdate" ∈ tradeEmitLoop sockets email ∧
       Emission.mk s.sid "tradeExecuted" ∈ tradeEmitLoop sockets email) ∧
    (∀ em ∈ tradeEmitLoop sockets email,
       ∃ s ∈ sockets, s.email = email ∧ em.sid = s.sid) ∧
    depositEmitLoop sockets email = [] := by
  refine ⟨?_, ?_, rfl⟩
  · intro s hs hemail
    constructor <;>
      · rw [tradeEmitLoop, List.mem_flatMap]
        exact ⟨s, hs, by simp [hemail]⟩
  · intro em hem
    rw [tradeEmitLoop, List.mem_flatMap] at hem
    obtain ⟨s, hs, hin⟩ := hem
    by_cases he : (s.email == email) = true
    · refine ⟨s, hs, by simpa using he, ?_⟩
      simp only [he, if_true, List.mem_cons, List.mem_singleton] at hin
      rcases hin with rfl | hin
      · rfl
      rcases hin with rfl | hin
      · rfl
      · simp at hin
    · simp [he] at hin

/-- C1: (1) every executed buy leaves the holding with quantity
`ownedQty + qty` and average cost `(oldAvg * ownedQty + price * qty) /
(ownedQty + qty)`; (2) after any successful sequence of buys starting from
no holding, the holding's quantity is the total bought quantity and its
average cost is the quantity-weighted mean of all buy fills; (3) no executed
sell ever changes the average cost of the surviving holding. -/
theorem avg_cost_weighted_mean_spec :
    (∀ (db : Db) (prices : String → ℚ) (email tk : String) (q ts : ℤ) (db' : Db),
       trade db prices email tk "buy" q ts = .ok db' →
       getHolding db' email tk = some
         ⟨email, tk, holdQty db email tk + q,
           ((holdAvg db email tk * ((holdQty db email tk : ℤ) : ℚ)) +
               prices tk * (q : ℚ)) / (((holdQty db email tk + q : ℤ) : ℚ))⟩) ∧
    (∀ (db : Db) (email tk : String) (fills : List (ℤ × ℚ)) (db' : Db),
       getHolding db email tk = none → runBuys email tk db fills = some db' →
       holdQty db' email tk = fillsQty fills ∧
       (fills ≠ [] →
         holdAvg db' email tk = fillsCost fills / ((fillsQty fills : ℤ) : ℚ))) ∧
    (∀ (db : Db) (prices : String → ℚ) (email tk : String) (q ts : ℤ) (db' : Db)
       (h' : HoldingRow),
       trade db prices email tk "sell" q ts = .ok db' →
       getHolding db' email tk = some h' → h'.avg_cost = holdAvg db email tk) := by
  refine ⟨?_, ?_, ?_⟩
  · intro db prices email tk q ts db' h
    exact buy_step_holding h
  · intro db email tk fills db' hnone hrun
    have hq0 : holdQty db email tk = 0 := by rw [holdQty, hnone]; rfl
    have ha0 : holdAvg db email tk = 0 := by rw [holdAvg, hnone]; rfl
    obtain ⟨hq, hcost⟩ := runBuys_qty_cost email tk fills db db' hrun (by rw [hq0])
    rw [hq0] at hq hcost
    rw [ha0] at hcost
    simp only [Int.cast_zero, mul_zero, zero_add, zero_mul] at hq hcost
    refine ⟨hq, fun hne => ?_⟩
    have hpos : 0 < fillsQty fills := by
      apply List.sum_pos
      · intro x hx
        obtain ⟨f, hf, rfl⟩ := List.mem_map.mp hx
        exact runBuys_fills_pos email tk fills db db' hrun f hf
      · simpa using hne
    have hne0 : ((fillsQty fills : ℤ) : ℚ) ≠ 0 := by exact_mod_cast hpos.ne.symm
    rw [hq] at hcost
    field_simp
    linarith [hcost]
  · intro db prices email tk q ts db' h' htr hget
    obtain ⟨-, -, port, -, -, rfl⟩ := trade_sell_inv (by simp) htr
    rw [getHolding_appendTrade, getHolding_updateCashRealized] at hget
    by_cases hz : holdQty db email tk - q = 0
    · rw [if_pos hz, getHolding_delete_self] at hget
      exact absurd hget (by simp)
    · rw [if_neg hz, getHolding_insert_self] at hget
      have := (Option.some.injEq _ _).mp hget
      rw [← this]

/-- C2: every sell through the trade handler requires `ownedQty ≥ qty`, and
otherwise fails with the insufficient-holdings error without producing a new
state; on success (given that stored cash and realized are exact 2-decimal
values, which all stored monetary values are) the realized accumulator grows
by exactly `round2 ((price - avg_cost) * qty)`, cash grows by exactly the
trade total `round2 (price * qty)`, and the holding quantity drops by `qty`. -/
theorem sell_realized_spec (db : Db) (prices : String → ℚ) (email tk : String)
    (q ts : ℤ) (port : PortfolioRow) (h1 : SUPPORTED_TICKERS.contains tk = true)
    (h2 : 0 < q) (hport : getPortfolio db email = some port)
    (hc : Cents port.cash) (hr : Cents port.realized) :
    (holdQty db email tk < q →
       trade db prices email tk "sell" q ts = .error .insufficientHoldings) ∧
    (q ≤ holdQty db email tk → ∃ db',
       trade db prices email tk "sell" q ts = .ok db' ∧
       getPortfolio db' email = some
         { port with
             cash := port.cash + round2 (prices tk * (q : ℚ)),
             realized := port.realized +
               round2 ((prices tk - holdAvg db email tk) * (q : ℚ)) } ∧
       holdQty db' email tk = holdQty db email tk - q) := by
  constructor
  · intro hlt
    exact trade_sell_insufficient db prices email tk q ts port h1 h2 hport hlt
  · intro hge
    have h3 : ¬(holdQty db email tk < q) := not_lt.mpr hge
    refine ⟨_, trade_sell_eval db prices email tk q ts port h1 h2 hport h3, ?_, ?_⟩
    · rw [getPortfolio_appendTrade]
      have hport1 : getPortfolio
          (if holdQty db email tk - q = 0 then deleteHolding db email tk
           else insertOrReplaceHolding db
             ⟨email, tk, holdQty db email tk - q, holdAvg db email tk⟩) email =
          some port := by
        by_cases hz : holdQty db email tk - q = 0
        · rw [if_pos hz]; exact hport
        · rw [if_neg hz]; exact hport
      rw [getPortfolio_updateCashRealized _ _ _ _ hport1]
      have hcash : round2 (port.cash + round2 (prices tk * (q : ℚ))) =
          port.cash + round2 (prices tk * (q : ℚ)) :=
        cents_round2_eq (cents_add hc (round2_cents _))
      have hrz : round2 (port.realized +
            round2 ((prices tk - holdAvg db email tk) * (q : ℚ))) =
          port.realized + round2 ((prices tk - holdAvg db email tk) * (q : ℚ)) :=
        cents_round2_eq (cents_add hr (round2_cents _))
      rw [hcash, hrz]
    · rw [holdQty, getHolding_appendTrade, getHolding_updateCashRealized]
      by_cases hz : holdQty db email tk - q = 0
      · rw [if_pos hz, getHolding_delete_self]
        simp [hz]
      · rw [if_neg hz, getHolding_insert_self]
        rfl

/-- C4: a buy through the trade handler is rejected with the
insufficient-cash error exactly when `price * qty > cash` (given that the
stored price and cash are exact 2-decimal values, which all stored monetary
values are), and on success cash decreases by exactly the trade total
`price * qty`. -/
theorem buy_cash_check_spec (db : Db) (prices : String → ℚ) (email tk : String)
    (q ts : ℤ) (port : PortfolioRow) (h1 : SUPPORTED_TICKERS.contains tk = true)
    (h2 : 0 < q) (hport : getPortfolio db email = some port)
    (hp : Cents (prices tk)) (hc : Cents port.cash) :
    (trade db prices email tk "buy" q ts = .error .insufficientCash ↔
       port.cash < prices tk * (q : ℚ)) ∧
    (prices tk * (q : ℚ) ≤ port.cash → ∃ db',
       trade db prices email tk "buy" q ts = .ok db' ∧
       getPortfolio db' email = some
         { port with cash := port.cash - prices tk * (q : ℚ) }) := by
  have htot : round2 (prices tk * (q : ℚ)) = prices tk * (q : ℚ) :=
    cents_round2_eq (cents_mul_int hp q)
  constructor
  · constructor
    · intro herr
      by_contra hge
      push_neg at hge
      have hok := trade_buy_eval db prices email tk q ts port h1 h2 hport
        (by rw [htot]; exact not_lt.mpr hge)
      rw [hok] at herr
      exact absurd herr (by simp)
    · intro hlt
      exact trade_buy_insufficient db prices email tk q ts port h1 h2 hport
        (by rw [htot]; exact hlt)
  · intro hge
    refine ⟨_, trade_buy_eval db prices email tk q ts port h1 h2 hport
      (by rw [htot]; exact not_lt.mpr hge), ?_⟩
    rw [getPortfolio_appendTrade]
    have hport2 : getPortfolio (insertOrReplaceHolding db
        ⟨email, tk, holdQty db email tk + q,
          ((holdAvg db email tk * ((holdQty db email tk : ℤ) : ℚ)) + prices tk * (q : ℚ)) /
            (((holdQty db email tk + q : ℤ) : ℚ))⟩) email = some port := hport
    rw [getPortfolio_updateCash _ _ _ hport2]
    have hcash : round2 (port.cash - round2 (prices tk * (q : ℚ))) =
        port.cash - prices tk * (q : ℚ) := by
      rw [htot]
      exact cents_round2_eq (cents_sub hc (cents_mul_int hp q))
    rw [hcash]

/-- C3: every executed trade (buy or sell) and every executed deposit
preserves the invariant that each retained holding row has quantity at
least 1: a buy stores `ownedQty + qty ≥ 1`, a sell that empties the position
deletes the row instead of storing quantity 0, and a deposit never touches
holdings. -/
theorem holdings_positive_invariant (db : Db) (hinv : HoldingsPos db) :
    (∀ (prices : String → ℚ) (email tk ty : String) (q ts : ℤ) (db' : Db),
       trade db prices email tk ty q ts = .ok db' → HoldingsPos db') ∧
    (∀ (email : String) (amount? : Option ℚ) (db2 : Db),
       deposit db email amount? = .ok db2 → HoldingsPos db2) := by
  constructor
  · intro prices email tk ty q ts db' htr
    by_cases hb : (ty == "buy") = true
    · obtain ⟨-, hq, port, -, -, rfl⟩ := trade_buy_inv hb htr
      intro r hr
      simp only [appendTrade, updatePortfolioCash, insertOrReplaceHolding,
        List.mem_cons] at hr
      rcases hr with rfl | hr2
      · have := holdQty_nonneg hinv email tk
        simp only
        omega
      · exact hinv r (List.mem_filter.mp hr2).1
    · obtain ⟨-, hq, port, -, hqle, rfl⟩ :=
        trade_sell_inv (Bool.not_eq_true _ ▸ (by simpa using hb)) htr
      intro r hr
      simp only [appendTrade, updatePortfolioCashRealized] at hr
      by_cases hz : holdQty db email tk - q = 0
      · rw [if_pos hz] at hr
        simp only [deleteHolding] at hr
        exact hinv r (List.mem_filter.mp hr).1
      · rw [if_neg hz] at hr
        simp only [insertOrReplaceHolding, List.mem_cons] at hr
        rcases hr with rfl | hr2
        · simp only
          omega
        · exact hinv r (List.mem_filter.mp hr2).1
  · intro email amount? db2 hdep
    obtain ⟨amount, port, -, -, -, rfl⟩ := deposit_ok_inv hdep
    intro r hr
    exact hinv r hr

/-- C10: every ledger operation preserves non-negativity of every account's
cash: a buy only goes through when cash covers the (non-negatively rounded)
total, a sell adds a non-negative total (prices are non-negative), a
deposit adds a positive amount, and registration funds the account with
100000. -/
theorem cash_nonneg_invariant (db : Db) (hinv : CashNonneg db) :
    (∀ (prices : String → ℚ) (email tk ty : String) (q ts : ℤ) (db' : Db),
       0 ≤ prices tk → trade db prices email tk ty q ts = .ok db' →
       CashNonneg db') ∧
    (∀ (email : String) (amount? : Option ℚ) (db2 : Db),
       deposit db email amount? = .ok db2 → CashNonneg db2) ∧
    (∀ email : String, CashNonneg (registerPortfolio db email)) := by
  refine ⟨?_, ?_, ?_⟩
  · intro prices email tk ty q ts db' hp htr
    by_cases hb : (ty == "buy") = true
    · obtain ⟨-, hq, port, hport, hcash2, rfl⟩ := trade_buy_inv hb htr
      have hv : 0 ≤ round2 (port.cash - round2 (prices tk * (q : ℚ))) := by
        apply round2_nonneg
        have := not_lt.mp hcash2
        linarith
      exact cashNonneg_updateCash hinv email hv
    · obtain ⟨-, hq, port, hport, hqle, rfl⟩ :=
        trade_sell_inv (Bool.not_eq_true _ ▸ (by simpa using hb)) htr
      have hpc : 0 ≤ port.cash := hinv port (List.mem_of_find?_eq_some hport)
      have hqQ : (0 : ℚ) ≤ (q : ℚ) := by
        have := hq.le
        exact_mod_cast this
      have hv : 0 ≤ round2 (port.cash + round2 (prices tk * (q : ℚ))) := by
        apply round2_nonneg
        have htot : 0 ≤ round2 (prices tk * (q : ℚ)) :=
          round2_nonneg (mul_nonneg hp hqQ)
        linarith
      have hbase : CashNonneg
          (if holdQty db email tk - q = 0 then deleteHolding db email tk
           else insertOrReplaceHolding db
             ⟨email, tk, holdQty db email tk - q, holdAvg db email tk⟩) := by
        split <;> exact hinv
      exact cashNonneg_updateCashRealized hbase email _ hv
  · intro email amount? db2 hdep
    obtain ⟨amount, port, -, ha, hport, rfl⟩ := deposit_ok_inv hdep
    have hpc : 0 ≤ port.cash := hinv port (List.mem_of_find?_eq_some hport)
    have hv : 0 ≤ round2 (port.cash + amount) := round2_nonneg (by linarith)
    exact cashNonneg_updateCash hinv email hv
  · intro email r hr
    simp only [registerPortfolio, List.mem_cons] at hr
    rcases hr with rfl | hr2
    · norm_num
    · exact hinv r (List.mem_filter.mp hr2).1

/-- C5 counterexample: for an account with no portfolio row, no default
account with cash 100000 is materialized on first access: a trade and a
deposit both fail with the portfolio-not-found error (creating nothing), and
the portfolio read reports cash 0 — not the claimed default funding amount
100000. -/
theorem lazy_creation_refuted :
    trade (Db.mk [] [] []) (fun _ => 200) "a" "GOOG" "buy" 1 0 =
      .error .portfolioNotFound ∧
    deposit (Db.mk [] [] []) "a" (some 5) = .error .portfolioNotFound ∧
    meCash (Db.mk [] [] []) "a" = 0 ∧ (0 : ℚ) ≠ 100000 := by
  refine ⟨?_, ?_, ?_, by norm_num⟩
  · exact trade_portfolioNotFound _ _ _ _ _ _ _ (by decide) (by norm_num) rfl
  · have h5 : ¬((5 : ℚ) ≤ 0) := by norm_num
    simp [deposit, getPortfolio, h5]
  · simp only [meCash, getPortfolio, List.find?_nil, Option.map_none',
      Option.getD_none]
    exact round2_zero

/-- C5 amended: the ledger performs no lazy account creation.  Accounts are
funded only by registration (`INSERT OR REPLACE` with cash 100000 and
realized 0); a trade or deposit for an account with no portfolio row fails
with the portfolio-not-found error and creates nothing, and a portfolio read
for such an account reports cash 0 and realized 0 without creating a row. -/
theorem eager_creation_spec (db : Db) (email : String)
    (hnone : getPortfolio db email = none) :
    (∀ (prices : String → ℚ) (tk ty : String) (q ts : ℤ),
       SUPPORTED_TICKERS.contains tk = true → 0 < q →
       trade db prices email tk ty q ts = .error .portfolioNotFound) ∧
    (∀ amount : ℚ, 0 < amount →
       deposit db email (some amount) = .error .portfolioNotFound) ∧
    meCash db email = 0 ∧ meRealized db email = 0 ∧
    getPortfolio (registerPortfolio db email) email = some ⟨email, 100000, 0⟩ := by
  refine ⟨?_, ?_, ?_, ?_, ?_⟩
  · intro prices tk ty q ts h1 h2
    exact trade_portfolioNotFound db prices email tk ty q ts h1 h2 hnone
  · intro amount ha
    have ha' : ¬(amount ≤ 0) := not_le.mpr ha
    simp [deposit, ha', hnone]
  · simp only [meCash, hnone, Option.map_none', Option.getD_none]
    exact round2_zero
  · simp only [meRealized, hnone, Option.map_none', Option.getD_none]
    exact round2_zero
  · simp [getPortfolio, registerPortfolio, List.find?_cons]

/-- C6 counterexample: a deposit of the positive amount 1/1000 (a tenth of a
cent) is accepted but leaves a cash balance of 0 unchanged, because the new
balance is rounded to 2 decimals — so a positive deposit does not always
increase cash by exactly the deposited amount. -/
theorem deposit_exact_amount_refuted :
    deposit (Db.mk [PortfolioRow.mk "a" 0 0] [] []) "a" (some (1 / 1000)) =
      .ok (Db.mk [PortfolioRow.mk "a" 0 0] [] []) ∧
    (0 : ℚ) < 1 / 1000 ∧ (0 : ℚ) + 1 / 1000 ≠ (0 : ℚ) := by
  refine ⟨?_, by norm_num, by norm_num⟩
  simp only [deposit, getPortfolio, updatePortfolioCash, round2, round_eq,
    List.find?, List.map]
  norm_num

/-- C6 amended: for a positive amount the deposit sets cash to
`round2 (cash + amount)` — which is exactly `cash + amount` whenever the
amount is a 2-decimal value (as the stored cash always is) — and leaves the
holdings table, the trades table and the realized accumulator unchanged;
a non-positive amount or a non-numeric amount is rejected with the
invalid-amount error, changing nothing. -/
theorem deposit_spec (db : Db) (email : String) (port : PortfolioRow)
    (hport : getPortfolio db email = some port) :
    (∀ amount : ℚ, 0 < amount → ∃ db',
       deposit db email (some amount) = .ok db' ∧
       getPortfolio db' email =
         some { port with cash := round2 (port.cash + amount) } ∧
       db'.holdings = db.holdings ∧ db'.trades = db.trades ∧
       (Cents amount → Cents port.cash →
         round2 (port.cash + amount) = port.cash + amount)) ∧
    (∀ amount : ℚ, amount ≤ 0 →
       deposit db email (some amount) = .error .invalidAmount) ∧
    deposit db email none = .error .invalidAmount := by
  refine ⟨?_, ?_, rfl⟩
  · intro amount ha
    refine ⟨_, deposit_eval db email amount port hport ha, ?_, rfl, rfl, ?_⟩
    · exact getPortfolio_updateCash db email _ hport
    · intro hca hcc
      exact cents_round2_eq (cents_add hcc hca)
  · intro amount ha
    simp [deposit, ha]

/-! ## Witnesses: concrete instances of the claim theorems -/

theorem history_fifo_spec_witness :
    (List.replicate 120 (1 : ℚ)).length ≤ HISTORY_LEN ∧
    ((tickHistory (List.replicate 120 (1 : ℚ)) 2).length ≤ HISTORY_LEN ∧
     (tickHistory (List.replicate 120 (1 : ℚ)) 2).getLast? = some 2 ∧
     (HISTORY_LEN ≤ (List.replicate 120 (1 : ℚ)).length →
       tickHistory (List.replicate 120 (1 : ℚ)) 2 =
         (List.replicate 120 (1 : ℚ)).tail ++ [2])) :=
  ⟨by simp [HISTORY_LEN], history_fifo_spec _ _ (by simp [HISTORY_LEN])⟩

theorem tick_price_positive_spec_witness :
    (0 : ℚ) < 200 ∧ Cents (200 : ℚ) ∧
    (0 < tickPrice 200 (-(1 / 100)) ∧ 1 / 100 ≤ tickPrice 200 (-(1 / 100)) ∧
     Cents (tickPrice 200 (-(1 / 100)))) :=
  ⟨by norm_num, ⟨20000, by norm_num⟩,
    tick_price_positive_spec 200 (-(1 / 100)) (by norm_num) ⟨20000, by norm_num⟩
      (by norm_num) (by norm_num)⟩

theorem targeted_push_spec_witness :
    Emission.mk 0 "portfolioUpdate" ∈
        tradeEmitLoop [Socket.mk 0 "a", Socket.mk 1 "b"] "a" ∧
    Emission.mk 0 "tradeExecuted" ∈
        tradeEmitLoop [Socket.mk 0 "a", Socket.mk 1 "b"] "a" ∧
    depositEmitLoop [Socket.mk 0 "a", Socket.mk 1 "b"] "a" = [] :=
  ⟨((targeted_push_spec [Socket.mk 0 "a", Socket.mk 1 "b"] "a").1
      (Socket.mk 0 "a") (by simp) rfl).1,
   ((targeted_push_spec [Socket.mk 0 "a", Socket.mk 1 "b"] "a").1
      (Socket.mk 0 "a") (by simp) rfl).2,
   (targeted_push_spec [Socket.mk 0 "a", Socket.mk 1 "b"] "a").2.2⟩

theorem avg_cost_weighted_mean_spec_witness :
    getHolding (Db.mk [PortfolioRow.mk "a" 100000 0] [] []) "a" "GOOG" = none ∧
    runBuys "a" "GOOG" (Db.mk [PortfolioRow.mk "a" 100000 0] [] [])
        [(5, 100), (5, 200)] =
      some (Db.mk [PortfolioRow.mk "a" 98500 0] [HoldingRow.mk "a" "GOOG" 10 150]
        [TradeRow.mk "a" "GOOG" 5 "buy" 100 500 0,
         TradeRow.mk "a" "GOOG" 5 "buy" 200 1000 0]) ∧
    (holdQty (Db.mk [PortfolioRow.mk "a" 98500 0] [HoldingRow.mk "a" "GOOG" 10 150]
        [TradeRow.mk "a" "GOOG" 5 "buy" 100 500 0,
         TradeRow.mk "a" "GOOG" 5 "buy" 200 1000 0]) "a" "GOOG" =
       fillsQty [(5, 100), (5, 200)] ∧
     (([((5 : ℤ), (100 : ℚ)), (5, 200)] : List (ℤ × ℚ)) ≠ [] →
       holdAvg (Db.mk [PortfolioRow.mk "a" 98500 0] [HoldingRow.mk "a" "GOOG" 10 150]
           [TradeRow.mk "a" "GOOG" 5 "buy" 100 500 0,
            TradeRow.mk "a" "GOOG" 5 "buy" 200 1000 0]) "a" "GOOG" =
         fillsCost [(5, 100), (5, 200)] /
           ((fillsQty [(5, 100), (5, 200)] : ℤ) : ℚ))) := by
  have h1 : trade (Db.mk [PortfolioRow.mk "a" 100000 0] [] []) (fun _ => 100)
      "a" "GOOG" "buy" 5 0 =
      .ok (Db.mk [PortfolioRow.mk "a" 99500 0] [HoldingRow.mk "a" "GOOG" 5 100]
        [TradeRow.mk "a" "GOOG" 5 "buy" 100 500 0]) := by
    simp only [trade, SUPPORTED_TICKERS, getPortfolio, getHolding, holdQty, holdAvg,
      insertOrReplaceHolding, updatePortfolioCash, appendTrade, round2, round_eq,
      List.find?, List.contains, List.map, List.filter]
    norm_num
  have h2 : trade (Db.mk [PortfolioRow.mk "a" 99500 0] [HoldingRow.mk "a" "GOOG" 5 100]
        [TradeRow.mk "a" "GOOG" 5 "buy" 100 500 0]) (fun _ => 200) "a" "GOOG" "buy" 5 0 =
      .ok (Db.mk [PortfolioRow.mk "a" 98500 0] [HoldingRow.mk "a" "GOOG" 10 150]
        [TradeRow.mk "a" "GOOG" 5 "buy" 100 500 0,
         TradeRow.mk "a" "GOOG" 5 "buy" 200 1000 0]) := by
    simp only [trade, SUPPORTED_TICKERS, getPortfolio, getHolding, holdQty, holdAvg,
      insertOrReplaceHolding, updatePortfolioCash, appendTrade, round2, round_eq,
      List.find?, List.contains, List.map, List.filter]
    norm_num
  have hrun : runBuys "a" "GOOG" (Db.mk [PortfolioRow.mk "a" 100000 0] [] [])
      [(5, 100), (5, 200)] =
      some (Db.mk [PortfolioRow.mk "a" 98500 0] [HoldingRow.mk "a" "GOOG" 10 150]
        [TradeRow.mk "a" "GOOG" 5 "buy" 100 500 0,
         TradeRow.mk "a" "GOOG" 5 "buy" 200 1000 0]) := by
    simp only [runBuys, h1, h2]
  exact ⟨rfl, hrun, avg_cost_weighted_mean_spec.2.1
    (Db.mk [PortfolioRow.mk "a" 100000 0] [] []) "a" "GOOG" _ _ rfl hrun⟩

theorem sell_realized_spec_witness :
    getPortfolio (Db.mk [PortfolioRow.mk "a" 98000 0]
        [HoldingRow.mk "a" "GOOG" 10 200] []) "a" = some (PortfolioRow.mk "a" 98000 0) ∧
    ((holdQty (Db.mk [PortfolioRow.mk "a" 98000 0]
          [HoldingRow.mk "a" "GOOG" 10 200] []) "a" "GOOG" < 4 →
        trade (Db.mk [PortfolioRow.mk "a" 98000 0] [HoldingRow.mk "a" "GOOG" 10 200] [])
          (fun _ => 220) "a" "GOOG" "sell" 4 0 = .error .insufficientHoldings) ∧
     (4 ≤ holdQty (Db.mk [PortfolioRow.mk "a" 98000 0]
          [HoldingRow.mk "a" "GOOG" 10 200] []) "a" "GOOG" → ∃ db',
        trade (Db.mk [PortfolioRow.mk "a" 98000 0] [HoldingRow.mk "a" "GOOG" 10 200] [])
          (fun _ => 220) "a" "GOOG" "sell" 4 0 = .ok db' ∧
        getPortfolio db' "a" = some (PortfolioRow.mk "a"
          ((98000 : ℚ) + round2 ((220 : ℚ) * ((4 : ℤ) : ℚ)))
          ((0 : ℚ) + round2 (((220 : ℚ) -
            holdAvg (Db.mk [PortfolioRow.mk "a" 98000 0]
              [HoldingRow.mk "a" "GOOG" 10 200] []) "a" "GOOG") * ((4 : ℤ) : ℚ)))) ∧
        holdQty db' "a" "GOOG" =
          holdQty (Db.mk [PortfolioRow.mk "a" 98000 0]
            [HoldingRow.mk "a" "GOOG" 10 200] []) "a" "GOOG" - 4)) :=
  ⟨by decide,
   sell_realized_spec (Db.mk [PortfolioRow.mk "a" 98000 0]
       [HoldingRow.mk "a" "GOOG" 10 200] []) (fun _ => 220) "a" "GOOG" 4 0
     (PortfolioRow.mk "a" 98000 0) (by decide) (by norm_num) (by decide)
     ⟨9800000, by norm_num⟩ ⟨0, by norm_num⟩⟩

theorem buy_cash_check_spec_witness :
    getPortfolio (Db.mk [PortfolioRow.mk "a" 100000 0] [] []) "a" =
      some (PortfolioRow.mk "a" 100000 0) ∧
    ((trade (Db.mk [PortfolioRow.mk "a" 100000 0] [] []) (fun _ => 200)
        "a" "GOOG" "buy" 10 0 = .error .insufficientCash ↔
        (100000 : ℚ) < (200 : ℚ) * ((10 : ℤ) : ℚ)) ∧
     ((200 : ℚ) * ((10 : ℤ) : ℚ) ≤ (100000 : ℚ) → ∃ db',
        trade (Db.mk [PortfolioRow.mk "a" 100000 0] [] []) (fun _ => 200)
          "a" "GOOG" "buy" 10 0 = .ok db' ∧
        getPortfolio db' "a" = some (PortfolioRow.mk "a"
          ((100000 : ℚ) - (200 : ℚ) * ((10 : ℤ) : ℚ)) 0))) :=
  ⟨by decide,
   buy_cash_check_spec (Db.mk [PortfolioRow.mk "a" 100000 0] [] []) (fun _ => 200)
     "a" "GOOG" 10 0 (PortfolioRow.mk "a" 100000 0) (by decide) (by norm_num)
     (by decide) ⟨20000, by norm_num⟩ ⟨10000000, by norm_num⟩⟩

theorem holdings_positive_invariant_witness :
    HoldingsPos (Db.mk [PortfolioRow.mk "a" 98000 0]
      [HoldingRow.mk "a" "GOOG" 10 200] []) ∧
    HoldingsPos (Db.mk [PortfolioRow.mk "a" 98880 80]
      [HoldingRow.mk "a" "GOOG" 6 200] [TradeRow.mk "a" "GOOG" 4 "sell" 220 880 0]) := by
  have hinv : HoldingsPos (Db.mk [PortfolioRow.mk "a" 98000 0]
      [HoldingRow.mk "a" "GOOG" 10 200] []) := by
    intro r hr
    have hr' : r ∈ [HoldingRow.mk "a" "GOOG" 10 200] := hr
    rcases List.mem_singleton.mp hr' with rfl
    decide
  have htr : trade (Db.mk [PortfolioRow.mk "a" 98000 0]
      [HoldingRow.mk "a" "GOOG" 10 200] []) (fun _ => 220) "a" "GOOG" "sell" 4 0 =
      .ok (Db.mk [PortfolioRow.mk "a" 98880 80] [HoldingRow.mk "a" "GOOG" 6 200]
        [TradeRow.mk "a" "GOOG" 4 "sell" 220 880 0]) := by
    simp only [trade, SUPPORTED_TICKERS, getPortfolio, getHolding, holdQty, holdAvg,
      insertOrReplaceHolding, updatePortfolioCashRealized, deleteHolding, appendTrade,
      round2, round_eq, List.find?, List.contains, List.map, List.filter]
    norm_num
    all_goals decide
  exact ⟨hinv, (holdings_positive_invariant _ hinv).1 (fun _ => 220) "a" "GOOG"
    "sell" 4 0 _ htr⟩

theorem cash_nonneg_invariant_witness :
    CashNonneg (Db.mk [PortfolioRow.mk "a" 98000 0]
      [HoldingRow.mk "a" "GOOG" 10 200] []) ∧
    CashNonneg (Db.mk [PortfolioRow.mk "a" 98880 80]
      [HoldingRow.mk "a" "GOOG" 6 200] [TradeRow.mk "a" "GOOG" 4 "sell" 220 880 0]) := by
  have hinv : CashNonneg (Db.mk [PortfolioRow.mk "a" 98000 0]
      [HoldingRow.mk "a" "GOOG" 10 200] []) := by
    intro r hr
    have hr' : r ∈ [PortfolioRow.mk "a" 98000 0] := hr
    rcases List.mem_singleton.mp hr' with rfl
    decide
  have htr : trade (Db.mk [PortfolioRow.mk "a" 98000 0]
      [HoldingRow.mk "a" "GOOG" 10 200] []) (fun _ => 220) "a" "GOOG" "sell" 4 0 =
      .ok (Db.mk [PortfolioRow.mk "a" 98880 80] [HoldingRow.mk "a" "GOOG" 6 200]
        [TradeRow.mk "a" "GOOG" 4 "sell" 220 880 0]) := by
    simp only [trade, SUPPORTED_TICKERS, getPortfolio, getHolding, holdQty, holdAvg,
      insertOrReplaceHolding, updatePortfolioCashRealized, deleteHolding, appendTrade,
      round2, round_eq, List.find?, List.contains, List.map, List.filter]
    norm_num
    all_goals decide
  exact ⟨hinv, (cash_nonneg_invariant _ hinv).1 (fun _ => 220) "a" "GOOG"
    "sell" 4 0 _ (by norm_num) htr⟩

theorem eager_creation_spec_witness :
    trade (Db.mk [] [] []) (fun _ => 1) "a" "GOOG" "x" 1 0 =
      .error .portfolioNotFound ∧
    deposit (Db.mk [] [] []) "a" (some 7) = .error .portfolioNotFound ∧
    meCash (Db.mk [] [] []) "a" = 0 ∧ meRealized (Db.mk [] [] []) "a" = 0 ∧
    getPortfolio (registerPortfolio (Db.mk [] [] []) "a") "a" =
      some (PortfolioRow.mk "a" 100000 0) :=
  ⟨(eager_creation_spec (Db.mk [] [] []) "a" rfl).1 (fun _ => 1) "GOOG" "x" 1 0
      (by decide) (by norm_num),
   (eager_creation_spec (Db.mk [] [] []) "a" rfl).2.1 7 (by norm_num),
   (eager_creation_spec (Db.mk [] [] []) "a" rfl).2.2.1,
   (eager_creation_spec (Db.mk [] [] []) "a" rfl).2.2.2.1,
   (eager_creation_spec (Db.mk [] [] []) "a" rfl).2.2.2.2⟩

theorem deposit_spec_witness :
    ∃ db', deposit (Db.mk [PortfolioRow.mk "a" 100000 0] [] []) "a"
        (some ((5 : ℚ) / 2)) = .ok db' ∧
      getPortfolio db' "a" = some (PortfolioRow.mk "a"
        (round2 ((100000 : ℚ) + (5 : ℚ) / 2)) 0) ∧
      db'.holdings = (Db.mk [PortfolioRow.mk "a" 100000 0] [] [] : Db).holdings ∧
      db'.trades = (Db.mk [PortfolioRow.mk "a" 100000 0] [] [] : Db).trades ∧
      (Cents ((5 : ℚ) / 2) → Cents (100000 : ℚ) →
        round2 ((100000 : ℚ) + (5 : ℚ) / 2) = (100000 : ℚ) + (5 : ℚ) / 2) :=
  (deposit_spec (Db.mk [PortfolioRow.mk "a" 100000 0] [] []) "a"
    (PortfolioRow.mk "a" 100000 0) (by decide)).1 ((5 : ℚ) / 2) (by norm_num)

end StockDashboard
